import Mathlib

attribute [local semireducible] Rat.mul Rat.inv Rat.add Rat.sub

/-!
Shallow embedding of the arb-seeker arbitrage pipeline.

Sources embedded here:
- `utils.ts` (margin calculator: `calculateProfitMargin`, `calculateGreyManStake`,
  `generateArbId`)
- `arbDetector.ts` (`findMatchingRunner`, `detectArbs`, `buildArbOpportunity`,
  `detectArb`)
- `arbEngine.ts` (`ArbEngine.validateArb` / `isProcessed` / `markProcessed` /
  `processArb`)
- `betfairAuth.ts` (`BetfairAuth.getSessionToken` / `refreshSession`)
- `betfairService.ts` (`BetfairService.makeRequest`)

Modelling conventions: JavaScript numbers carrying prices, stakes and margins
become `ℚ`; timestamps become `ℤ` (milliseconds); Deno KV slots become explicit
association lists or option slots with an absolute expiry timestamp (KV `get`
returns nothing once the entry's `expireIn` deadline has passed); `Math.random`
draws become an arbitrary sequence `ℕ → ℕ` reduced modulo the sampled span;
thrown exceptions become `Except`; `null` returns become `Option`.
String operations (`toLowerCase`, `trim`, `includes`) are modelled on the
character-list view of `String`.
-/

/-- Character-level model of JavaScript `String.prototype.toLowerCase`. -/
def lowerStr (s : String) : String := ⟨s.data.map Char.toLower⟩

/-- Character-level model of JavaScript `String.prototype.trim`. -/
def trimStr (s : String) : String :=
  ⟨((s.data.dropWhile Char.isWhitespace).reverse.dropWhile Char.isWhitespace).reverse⟩

/-- Helper for substring containment: does `sub` occur at the head of the list? -/
def strPrefixOf : List Char → List Char → Bool
  | [], _ => true
  | _ :: _, [] => false
  | a :: as, b :: bs => a == b && strPrefixOf as bs

/-- Helper for substring containment: does `sub` occur anywhere in the list? -/
def strContainsAux (sub : List Char) : List Char → Bool
  | [] => strPrefixOf sub []
  | c :: rest => strPrefixOf sub (c :: rest) || strContainsAux sub rest

/-- Model of JavaScript `s.includes(sub)`: `sub` occurs contiguously in `s`. -/
def strContains (s sub : String) : Bool := strContainsAux sub.data s.data

/-- One price level of a Betfair order book (`BetfairPrice` in `types.ts`). -/
structure BetfairPrice where
  price : ℚ
  size : ℚ
deriving DecidableEq

/-- The `ex` field of a runner: best available back/lay levels, best first. -/
structure RunnerEx where
  availableToBack : List BetfairPrice
  availableToLay : List BetfairPrice
deriving DecidableEq

/-- A Betfair runner (`BetfairRunner` in `types.ts`).  Metadata fields that no
embedded function ever reads (`handicap`, `status`, `adjustmentFactor`,
`lastPriceTraded`, `totalMatched`) are omitted. -/
structure BetfairRunner where
  selectionId : ℤ
  runnerName : String
  ex : Option RunnerEx
deriving DecidableEq

/-- The Betfair market input of `detectArbs` (`BetfairOdds` in `arbDetector.ts`). -/
structure BetfairOdds where
  marketId : String
  marketName : String
  runners : List BetfairRunner
deriving DecidableEq

/-- One flattened bookmaker quote (`BookieOdds` in `arbDetector.ts`). -/
structure BookieOdds where
  eventId : String
  event : String
  sport : String
  startTime : String
  bookie : String
  bookieKey : String
  bookieUrl : String
  outcome : String
  odds : ℚ
deriving DecidableEq

/-- The central opportunity entity (`ArbOpportunity` in `types.ts`). -/
structure ArbOpportunity where
  id : String
  event : String
  sport : String
  startTime : String
  bookie : String
  bookieOdds : ℚ
  bookieUrl : String
  suggestedStake : ℚ
  betfairMarketId : String
  betfairSelectionId : ℤ
  layOdds : ℚ
  layLiquidity : ℚ
  profitMargin : ℚ
deriving DecidableEq

/-- Model of `calculateProfitMargin` in `utils.ts`:
`(backOdds - layOdds) / layOdds`, or `0` when `layOdds <= 0`. -/
def calculateProfitMargin (backOdds layOdds : ℚ) : ℚ :=
  if layOdds ≤ 0 then 0 else (backOdds - layOdds) / layOdds

/-- Model of `generateArbId` in `utils.ts`: the template string
`eventId_marketType`. -/
def generateArbId (eventId marketType : String) : String :=
  eventId ++ "_" ++ marketType

/-- The candidate drawn on iteration `i` of the `calculateGreyManStake` loop:
`Math.floor(Math.random() * (max - min + 1)) + min`, with the `i`-th
`Math.random` draw modelled by `r i` reduced modulo the span. -/
def greyCandidate (r : ℕ → ℕ) (min max : ℤ) (i : ℕ) : ℤ :=
  min + ((r i % (max - min + 1).toNat : ℕ) : ℤ)

/-- The `do/while` guard of `calculateGreyManStake`: the drawn stake is kept
unless it is a multiple of 50 or of 100. -/
def greyOk (stake : ℤ) : Bool := !(stake % 50 == 0 || stake % 100 == 0)

/-- Fuelled unfolding of the `do { ... } while` loop of `calculateGreyManStake`
in `utils.ts`, starting at draw index `i`.  `none` means the loop is still
running after `fuel` iterations. -/
def greyLoop (r : ℕ → ℕ) (min max : ℤ) : ℕ → ℕ → Option ℤ
  | 0, _ => none
  | fuel + 1, i =>
    let stake := greyCandidate r min max i
    if stake % 50 == 0 || stake % 100 == 0 then greyLoop r min max fuel (i + 1)
    else some stake

/-- Model of `calculateGreyManStake` in `utils.ts`: resample until the stake is
not a multiple of 50 or 100.  The observation is bounded by `fuel`. -/
def calculateGreyManStake (fuel : ℕ) (r : ℕ → ℕ) (min max : ℤ) : Option ℤ :=
  greyLoop r min max fuel 0

/-- The lay-price list the detectors read: `runner.ex?.availableToLay || []`. -/
def layPricesOf (runner : BetfairRunner) : List BetfairPrice :=
  match runner.ex with
  | some e => e.availableToLay
  | none => []

/-- The bookmaker deep link built by the detectors:
`https://www.BOOKIEKEY.com.au/bet/EVENTID` with the key lower-cased. -/
def bookieUrlOf (bookieKey eventId : String) : String :=
  "https://www." ++ lowerStr bookieKey ++ ".com.au/bet/" ++ eventId

/-- The match test applied to one runner by `findMatchingRunner` in
`arbDetector.ts`: normalized (lower-cased, trimmed) equality, or either
normalized name containing the other. -/
def runnerMatchPred (bookieOutcome : String) (r : BetfairRunner) : Bool :=
  let nb := trimStr (lowerStr bookieOutcome)
  let nr := trimStr (lowerStr r.runnerName)
  nr == nb || (strContains nr nb || strContains nb nr)

/-- Model of `findMatchingRunner` in `arbDetector.ts`: walk the runner list in
order; return the first runner whose normalized name equals the normalized
outcome, or where either normalized name contains the other; `null` if none. -/
def findMatchingRunner (bookieOutcome : String) : List BetfairRunner → Option BetfairRunner
  | [] => none
  | r :: rest =>
    let nb := trimStr (lowerStr bookieOutcome)
    let nr := trimStr (lowerStr r.runnerName)
    if nr == nb then some r
    else if strContains nr nb || strContains nb nr then some r
    else findMatchingRunner bookieOutcome rest

/-- The opportunity record pushed by `detectArbs` for a matched quote. -/
def mkDetectedArb (bookie : BookieOdds) (betfairOdds : BetfairOdds)
    (runner : BetfairRunner) (best : BetfairPrice) : ArbOpportunity :=
  { id := generateArbId bookie.eventId bookie.outcome
    event := bookie.event
    sport := bookie.sport
    startTime := bookie.startTime
    bookie := bookie.bookie
    bookieOdds := bookie.odds
    bookieUrl := bookieUrlOf bookie.bookieKey bookie.eventId
    suggestedStake := 0
    betfairMarketId := betfairOdds.marketId
    betfairSelectionId := runner.selectionId
    layOdds := best.price
    layLiquidity := best.size * best.price
    profitMargin := calculateProfitMargin bookie.odds best.price }

/-- Model of `detectArbs` in `arbDetector.ts`: for each quote in order, match a
runner, read the best lay level, take `size * price` as approximate liquidity,
and emit an opportunity exactly when the profit margin is strictly positive. -/
def detectArbs (bookieOdds : List BookieOdds) (betfairOdds : BetfairOdds) :
    List ArbOpportunity :=
  match bookieOdds with
  | [] => []
  | bookie :: rest =>
    (match findMatchingRunner bookie.outcome betfairOdds.runners with
     | none => []
     | some runner =>
       match layPricesOf runner with
       | [] => []
       | best :: _ =>
         if 0 < calculateProfitMargin bookie.odds best.price then
           [mkDetectedArb bookie betfairOdds runner best]
         else []) ++ detectArbs rest betfairOdds

/-- Model of `buildArbOpportunity` in `arbDetector.ts`: same math as
`detectArbs` for one already-matched runner, with descriptive fields passed in. -/
def buildArbOpportunity (bookie : BookieOdds) (betfairRunner : BetfairRunner)
    (betfairMarketId : String) (event sport startTime : String) :
    Option ArbOpportunity :=
  match layPricesOf betfairRunner with
  | [] => none
  | best :: _ =>
    let layOdds := best.price
    let profitMargin := calculateProfitMargin bookie.odds layOdds
    if profitMargin ≤ 0 then none
    else some
      { id := generateArbId bookie.eventId bookie.outcome
        event := event
        sport := sport
        startTime := startTime
        bookie := bookie.bookie
        bookieOdds := bookie.odds
        bookieUrl := bookieUrlOf bookie.bookieKey bookie.eventId
        suggestedStake := 0
        betfairMarketId := betfairMarketId
        betfairSelectionId := betfairRunner.selectionId
        layOdds := layOdds
        layLiquidity := best.size * layOdds
        profitMargin := profitMargin }

/-- Lookup in an insertion-ordered association list (JavaScript `Map.get`, and
Deno KV `get` restricted to the keys a component uses). -/
def assocGet {V : Type} (m : List (String × V)) (k : String) : Option V :=
  (m.find? (fun p => p.1 == k)).map (fun p => p.2)

/-- Update in an insertion-ordered association list (JavaScript `Map.set`, and
Deno KV `set`): replace in place if the key is present, else append. -/
def assocSet {V : Type} : List (String × V) → String → V → List (String × V)
  | [], k, v => [(k, v)]
  | p :: t, k, v => if p.1 == k then (k, v) :: t else p :: assocSet t k v

/-- A processed marker as written by `ArbEngine.markProcessed`: the write
timestamp, plus the absolute deadline after which the KV `expireIn` option
removes the entry. -/
structure Marker where
  timestamp : ℤ
  expiresAt : ℤ
deriving DecidableEq

/-- The processed-marker store of `ArbEngine`: the KV entries under the
`['processed', id]` keys, indexed by opportunity id. -/
abbrev ProcessedStore := List (String × Marker)

/-- The `MIN_PROFIT_MARGIN` constant of `arbEngine.ts` (2%). -/
def MIN_PROFIT_MARGIN : ℚ := 2 / 100

/-- The `KV_EXPIRY_SECONDS` constant of `arbEngine.ts` converted to the
milliseconds actually passed to `expireIn` (2 hours). -/
def KV_EXPIRY_MS : ℤ := 2 * 60 * 60 * 1000

/-- A rejection reason produced by `ArbEngine.validateArb`.  The source builds
human-readable strings; the two shapes are kept as distinct constructors with
the numbers the strings would interpolate. -/
inductive RejectReason where
  | marginBelow (margin minimum : ℚ)
  | insufficientLiquidity (required available : ℚ)
deriving DecidableEq

/-- Result of `ArbEngine.validateArb` (`{ valid: boolean; reason?: string }`). -/
inductive ValidateResult where
  | valid
  | invalid (reason : RejectReason)
deriving DecidableEq

/-- Model of `ArbEngine.validateArb` in `arbEngine.ts`: reject when the profit
margin is below the 2% minimum; else reject when the lay liquidity is below
`suggestedStake * bookieOdds`; else accept. -/
def validateArb (arb : ArbOpportunity) : ValidateResult :=
  if arb.profitMargin < MIN_PROFIT_MARGIN then
    ValidateResult.invalid (RejectReason.marginBelow arb.profitMargin MIN_PROFIT_MARGIN)
  else if arb.layLiquidity < arb.suggestedStake * arb.bookieOdds then
    ValidateResult.invalid (RejectReason.insufficientLiquidity
      (arb.suggestedStake * arb.bookieOdds) arb.layLiquidity)
  else ValidateResult.valid

/-- Model of `ArbEngine.isProcessed`: the KV entry for `id` exists and its
`expireIn` deadline has not passed at time `now`. -/
def isProcessed (store : ProcessedStore) (now : ℤ) (id : String) : Bool :=
  match assocGet store id with
  | some marker => decide (now < marker.expiresAt)
  | none => false

/-- Model of `ArbEngine.markProcessed`: write a marker for `arb.id` with the
current timestamp and an `expireIn` of `KV_EXPIRY_SECONDS * 1000`. -/
def markProcessed (store : ProcessedStore) (now : ℤ) (arb : ArbOpportunity) :
    ProcessedStore :=
  assocSet store arb.id ⟨now, now + KV_EXPIRY_MS⟩

/-- A reason carried by a `processed: false` result of `ArbEngine.processArb`:
either the duplicate rejection (`'Already processed'`) or a validation reason. -/
inductive ProcessReason where
  | alreadyProcessed
  | rejected (r : RejectReason)
deriving DecidableEq

/-- Result record of `ArbEngine.processArb`
(`{ processed: boolean; reason?: string }`). -/
structure ProcessResult where
  processed : Bool
  reason : Option ProcessReason
deriving DecidableEq

/-- Model of `ArbEngine.processArb` in `arbEngine.ts`: reject duplicates first,
then validate, and only on acceptance write the processed marker.  The pair
returns the result record together with the store after the call. -/
def processArb (store : ProcessedStore) (now : ℤ) (arb : ArbOpportunity) :
    ProcessResult × ProcessedStore :=
  if isProcessed store now arb.id then
    (⟨false, some ProcessReason.alreadyProcessed⟩, store)
  else
    match validateArb arb with
    | ValidateResult.invalid r => (⟨false, some (ProcessReason.rejected r)⟩, store)
    | ValidateResult.valid => (⟨true, none⟩, markProcessed store now arb)

/-- The session slot of `BetfairAuth`: the KV entry under `['betfair_session']`,
holding the token and the absolute deadline set through `expireIn`. -/
structure SessionStore where
  slot : Option (String × ℤ)
deriving DecidableEq

/-- KV `get` on the session slot: the cached token, unless the `expireIn`
deadline has passed at time `now`. -/
def sessionGet (store : SessionStore) (now : ℤ) : Option String :=
  match store.slot with
  | some (token, expiresAt) => if now < expiresAt then some token else none
  | none => none

/-- KV `set` on the session slot with an `expireIn` of `ttlMs` milliseconds. -/
def sessionSet (now : ℤ) (token : String) (ttlMs : ℤ) : SessionStore :=
  ⟨some (token, now + ttlMs)⟩

/-- The parsed body of the Betfair login exchange as `getSessionToken` sees it:
an unparseable (non-JSON) body, a JSON body whose `status` is not `SUCCESS`,
or a successful body carrying the token. -/
inductive LoginResponse where
  | invalidBody (httpStatus : ℕ)
  | loginFailed (status errMsg : String)
  | success (token : String)
deriving DecidableEq

/-- The exceptions `getSessionToken` can throw. -/
inductive AuthError where
  | notJson (httpStatus : ℕ)
  | loginRejected (status errMsg : String)
deriving DecidableEq

/-- Model of `BetfairAuth.getSessionToken` in `betfairAuth.ts`: if the KV slot
holds a (not yet expired) value, return it at once; otherwise perform the login
exchange — whose parsed body is the `login` argument — throwing on a non-JSON
body or a non-`SUCCESS` status, and on success cache the token with an
`expireIn` of `14400 * 1000` ms (4 hours) and return it.  The `Bool` in the
result records whether the login network call was performed. -/
def getSessionToken (store : SessionStore) (now : ℤ) (login : LoginResponse) :
    Except AuthError (String × Bool × SessionStore) :=
  match sessionGet store now with
  | some token => Except.ok (token, false, store)
  | none =>
    match login with
    | LoginResponse.invalidBody st => Except.error (AuthError.notJson st)
    | LoginResponse.loginFailed st msg => Except.error (AuthError.loginRejected st msg)
    | LoginResponse.success token =>
      Except.ok (token, true, sessionSet now token (14400 * 1000))

/-- Model of `BetfairAuth.refreshSession`: delete the cached session, then run
`getSessionToken` (which now always takes the login path). -/
def refreshSession (now : ℤ) (login : LoginResponse) :
    Except AuthError (String × Bool × SessionStore) :=
  getSessionToken ⟨none⟩ now login

/-- One upstream response to an attempt of `BetfairService.makeRequest`, in the
order the source inspects it: a non-ok HTTP status (thrown), a JSON-RPC error
whose message contains `INVALID_SESSION` (session refresh plus retry), any
other JSON-RPC error (thrown), a body with no `result` (thrown), or a result. -/
inductive RpcResponse (T : Type) where
  | httpError (status : ℕ)
  | invalidSession
  | apiError (msg : String)
  | noResult
  | ok (result : T)
deriving DecidableEq

/-- The exceptions `makeRequest` can throw. -/
inductive RpcError where
  | http (status : ℕ)
  | api (msg : String)
  | emptyResult
deriving DecidableEq

/-- Observed behaviour of one `makeRequest` call: how many attempts (requests
actually sent upstream) it consumed, and its outcome — `none` meaning the call
is still retrying when the observed response sequence runs out. -/
structure CallTrace (T : Type) where
  attempts : ℕ
  outcome : Option (Except RpcError T)

/-- Model of `BetfairService.makeRequest` in `betfairService.ts`, run against
the sequence of upstream responses the successive attempts receive.  On an
`INVALID_SESSION` error message the source calls `auth.refreshSession()` and
re-issues the same call recursively with no retry counter or depth cap, so the
model consumes the next response and keeps going. -/
def makeRequest {T : Type} : List (RpcResponse T) → CallTrace T
  | [] => ⟨0, none⟩
  | resp :: rest =>
    match resp with
    | RpcResponse.httpError st => ⟨1, some (Except.error (RpcError.http st))⟩
    | RpcResponse.invalidSession =>
      let t := makeRequest rest
      ⟨t.attempts + 1, t.outcome⟩
    | RpcResponse.apiError msg => ⟨1, some (Except.error (RpcError.api msg))⟩
    | RpcResponse.noResult => ⟨1, some (Except.error RpcError.emptyResult)⟩
    | RpcResponse.ok v => ⟨1, some (Except.ok v)⟩

/-- One flattened bookmaker entry of the parsed game object consumed by
`detectArb` (the `bookmakers` array element in `arbDetector.ts`). -/
structure GameBookmaker where
  bookie : String
  bookieKey : String
  market : String
  outcome : String
  odds : ℚ
  point : Option ℚ
deriving DecidableEq

/-- The parsed game object consumed by `detectArb`. -/
structure Game where
  eventId : String
  sport : String
  sportKey : String
  homeTeam : String
  awayTeam : String
  commenceTime : String
  bookmakers : List GameBookmaker
deriving DecidableEq

/-- The Betfair market object consumed by `detectArb` (`bfMarket` parameter);
its runners have the same shape as `BetfairRunner`. -/
structure BfMarket where
  marketId : String
  runners : List BetfairRunner
deriving DecidableEq

/-- A value of `detectArb`'s `bookieMap`: the best back quote kept so far for
one bookmaker (`{ bookie, bookieKey, odds }`). -/
structure BookieBest where
  bookie : String
  bookieKey : String
  odds : ℚ
deriving DecidableEq

/-- The `bookieMap` construction loop of `detectArb`: for every `h2h` quote on
the home team, set the bookmaker's entry when absent or when the new odds are
strictly greater than the stored odds.  The JavaScript `Map` is modelled by an
insertion-ordered association list. -/
def buildBookieMap (homeTeam : String) :
    List GameBookmaker → List (String × BookieBest) → List (String × BookieBest)
  | [], m => m
  | bm :: rest, m =>
    if bm.market == "h2h" && bm.outcome == homeTeam then
      match assocGet m bm.bookie with
      | none =>
        buildBookieMap homeTeam rest
          (assocSet m bm.bookie ⟨bm.bookie, bm.bookieKey, bm.odds⟩)
      | some existing =>
        if bm.odds > existing.odds then
          buildBookieMap homeTeam rest
            (assocSet m bm.bookie ⟨bm.bookie, bm.bookieKey, bm.odds⟩)
        else buildBookieMap homeTeam rest m
    else buildBookieMap homeTeam rest m

/-- The acceptance test of `detectArb`'s bookmaker loop:
`(1/backPrice) + (1/layPrice) < 0.98` and lay liquidity strictly above 20. -/
def arbQualifies (layOdds liquidity : ℚ) (e : BookieBest) : Bool :=
  decide (1 / e.odds + 1 / layOdds < 98 / 100) && decide (liquidity > 20)

/-- The bookmaker loop of `detectArb`: walk the map entries in insertion order
and return the first entry passing `arbQualifies`, if any. -/
def firstQualifying (layOdds liquidity : ℚ) :
    List (String × BookieBest) → Option (String × BookieBest)
  | [] => none
  | e :: rest =>
    if arbQualifies layOdds liquidity e.2 then some e
    else firstQualifying layOdds liquidity rest

/-- The opportunity record returned by `detectArb` for a qualifying entry. -/
def mkSingleArb (game : Game) (bfMarket : BfMarket) (homeRunner : BetfairRunner)
    (bfLayOdds bfLiquidity : ℚ) (entry : String × BookieBest) : ArbOpportunity :=
  { id := game.eventId ++ "_" ++ entry.2.bookieKey ++ "_home"
    event := game.homeTeam ++ " vs " ++ game.awayTeam
    sport := game.sport
    startTime := game.commenceTime
    bookie := entry.1
    bookieOdds := entry.2.odds
    bookieUrl := bookieUrlOf entry.2.bookieKey game.eventId
    suggestedStake := 0
    betfairMarketId := bfMarket.marketId
    betfairSelectionId := homeRunner.selectionId
    layOdds := bfLayOdds
    layLiquidity := bfLiquidity
    profitMargin := 1 / (1 / entry.2.odds + 1 / bfLayOdds) - 1 }

/-- The home-runner search of `detectArb`: lower-cased names, either containing
the other (no trim here, unlike `findMatchingRunner`). -/
def homeRunnerMatch (homeTeam : String) (r : BetfairRunner) : Bool :=
  strContains (lowerStr r.runnerName) (lowerStr homeTeam) ||
    strContains (lowerStr homeTeam) (lowerStr r.runnerName)

/-- Model of `detectArb` in `arbDetector.ts` (single-side detector): find the
home-team runner, read the best lay level (price, and raw `size` as
liquidity), build the per-bookmaker best-quote map, and return the first
qualifying bookmaker's opportunity, or `null`. -/
def detectArb (game : Game) (bfMarket : BfMarket) : Option ArbOpportunity :=
  match bfMarket.runners.find? (fun r => homeRunnerMatch game.homeTeam r) with
  | none => none
  | some homeRunner =>
    match layPricesOf homeRunner with
    | [] => none
    | best :: _ =>
      let bfLayOdds := best.price
      let bfLiquidity := best.size
      match firstQualifying bfLayOdds bfLiquidity
          (buildBookieMap game.homeTeam game.bookmakers []) with
      | none => none
      | some entry => some (mkSingleArb game bfMarket homeRunner bfLayOdds bfLiquidity entry)

/-- Spec reference for C5: the quotes relevant to one bookmaker — `h2h` market,
outcome equal to the home team, that bookmaker's name. -/
def relevantFor (homeTeam bookieName : String) (bms : List GameBookmaker) :
    List GameBookmaker :=
  bms.filter (fun bm => bm.market == "h2h" && bm.outcome == homeTeam && bm.bookie == bookieName)

/-- Spec reference for C5, written from the spec's words: keep, over a list of
quotes, the highest back price with a strictly-greater override — a later quote
replaces the kept one only when its odds are strictly greater, so an equal
later price does not replace an earlier one. -/
def bestStrict : Option BookieBest → List GameBookmaker → Option BookieBest
  | acc, [] => acc
  | none, bm :: rest => bestStrict (some ⟨bm.bookie, bm.bookieKey, bm.odds⟩) rest
  | some a, bm :: rest =>
    bestStrict (if bm.odds > a.odds then some ⟨bm.bookie, bm.bookieKey, bm.odds⟩ else some a) rest

/-- Concrete quote used to exercise `detectArbs`: back odds 1.5 on outcome
`team alpha`. -/
def c3Bookie : BookieOdds :=
  ⟨"ev1", "Alpha vs Beta", "Basketball", "2026-01-01T00:00:00Z",
    "BookieX", "BookieX", "https://bookie.example", "team alpha", 3 / 2⟩

/-- Concrete exchange market used to exercise `detectArbs`: one runner with a
best lay level of price 1.2 and size 100. -/
def c3Betfair : BetfairOdds :=
  ⟨"1.234", "Match Odds", [⟨7, "Team Alpha", some ⟨[], [⟨6 / 5, 100⟩]⟩⟩]⟩

/-- The runner of `c3Betfair`. -/
def c3Runner : BetfairRunner := ⟨7, "Team Alpha", some ⟨[], [⟨6 / 5, 100⟩]⟩⟩

/-- The opportunity `detectArbs [c3Bookie] c3Betfair` emits: back 1.5 against
lay 1.2, margin 0.25, implied-probability sum 3/2. -/
def c3Opp : ArbOpportunity := mkDetectedArb c3Bookie c3Betfair c3Runner ⟨6 / 5, 100⟩

/-- Concrete opportunity that passes `validateArb`: 4% margin, stake 30 backed
at odds 2 (required liquidity 60), lay liquidity 100. -/
def wArb : ArbOpportunity :=
  ⟨"ev1_home", "Alpha vs Beta", "Basketball", "2026-01-01T00:00:00Z",
    "BookieX", 2, "https://bookie.example", 30, "1.234", 7, 19 / 10, 100, 4 / 100⟩

/-- Variant of `wArb` whose lay liquidity exactly equals the required
`suggestedStake * bookieOdds` amount (60). -/
def wArbEdge : ArbOpportunity :=
  ⟨"ev2_home", "Alpha vs Beta", "Basketball", "2026-01-01T00:00:00Z",
    "BookieX", 2, "https://bookie.example", 30, "1.234", 7, 19 / 10, 60, 4 / 100⟩

/-- Variant of `wArb` whose lay liquidity is one cent below the required
amount (59.99 against 60). -/
def wArbLow : ArbOpportunity :=
  ⟨"ev3_home", "Alpha vs Beta", "Basketball", "2026-01-01T00:00:00Z",
    "BookieX", 2, "https://bookie.example", 30, "1.234", 7, 19 / 10, 5999 / 100, 4 / 100⟩

/-- Concrete parsed game used to exercise `detectArb`: one bookmaker quoting
the home team at 2.1 on the `h2h` market. -/
def wGame : Game :=
  ⟨"ev9", "Basketball", "basketball_nba", "Alpha", "Beta", "2026-01-01T00:00:00Z",
    [⟨"BookieX", "bookiex", "h2h", "Alpha", 21 / 10, none⟩]⟩

/-- The home runner of `wMarket`: best lay level price 2.05, size 100. -/
def wHomeRunner : BetfairRunner := ⟨7, "Alpha FC", some ⟨[], [⟨41 / 20, 100⟩]⟩⟩

/-- Concrete Betfair market used to exercise `detectArb`. -/
def wMarket : BfMarket := ⟨"1.234", [wHomeRunner]⟩

/-- The qualifying bookmaker entry `detectArb wGame wMarket` selects. -/
def wEntry : String × BookieBest := ("BookieX", ⟨"BookieX", "bookiex", 21 / 10⟩)

/-- The opportunity `detectArb wGame wMarket` returns. -/
def wSingleOpp : ArbOpportunity :=
  mkSingleArb wGame wMarket wHomeRunner (41 / 20) 100 wEntry

theorem assocGet_set_self {V : Type} (m : List (String × V)) (k : String) (v : V) :
    assocGet (assocSet m k v) k = some v := by
  induction m with
  | nil => simp [assocSet, assocGet, List.find?]
  | cons p t ih =>
    by_cases h : p.1 = k
    · simp [assocSet, h, assocGet, List.find?]
    · have hb : (p.1 == k) = false := by simpa using h
      simpa [assocSet, hb, assocGet, List.find?] using ih

theorem assocGet_set_ne {V : Type} (m : List (String × V)) (j k : String) (v : V)
    (h : j ≠ k) : assocGet (assocSet m j v) k = assocGet m k := by
  induction m with
  | nil =>
    have hb : (j == k) = false := by simpa using h
    simp [assocSet, assocGet, List.find?, hb]
  | cons p t ih =>
    by_cases hp : p.1 = j
    · have hb : (j == k) = false := by simpa using h
      have hpk : (p.1 == k) = false := by simp [hp]; simpa using h
      simp [assocSet, hp, assocGet, List.find?, hb, hpk]
    · have hpj : (p.1 == j) = false := by simpa using hp
      by_cases hpk : p.1 = k
      · simp [assocSet, hpj, assocGet, List.find?, hpk, Ne.symm h]
      · have hpkb : (p.1 == k) = false := by simpa using hpk
        simpa [assocSet, hpj, assocGet, List.find?, hpkb] using ih

theorem findMatchingRunner_eq_find (bookieOutcome : String) (rs : List BetfairRunner) :
    findMatchingRunner bookieOutcome rs = rs.find? (runnerMatchPred bookieOutcome) := by
  induction rs with
  | nil => rfl
  | cons r rest ih =>
    by_cases he : (trimStr (lowerStr r.runnerName) == trimStr (lowerStr bookieOutcome)) = true
    · simp [findMatchingRunner, runnerMatchPred, List.find?, he]
    · have he' := Bool.not_eq_true _ |>.mp he
      by_cases hc : (strContains (trimStr (lowerStr r.runnerName)) (trimStr (lowerStr bookieOutcome)) ||
          strContains (trimStr (lowerStr bookieOutcome)) (trimStr (lowerStr r.runnerName))) = true
      · simp [findMatchingRunner, runnerMatchPred, List.find?, he', hc]
      · have hc' := Bool.not_eq_true _ |>.mp hc
        simpa [findMatchingRunner, runnerMatchPred, List.find?, he', hc'] using ih

theorem firstQualifying_eq_find (layOdds liquidity : ℚ) (m : List (String × BookieBest)) :
    firstQualifying layOdds liquidity m = m.find? (fun e => arbQualifies layOdds liquidity e.2) := by
  induction m with
  | nil => rfl
  | cons e rest ih =>
    by_cases hq : arbQualifies layOdds liquidity e.2 = true
    · simp [firstQualifying, List.find?, hq]
    · have hq' := Bool.not_eq_true _ |>.mp hq
      simpa [firstQualifying, List.find?, hq'] using ih

theorem buildBookieMap_get (home k : String) :
    ∀ (bms : List GameBookmaker) (m : List (String × BookieBest)),
      assocGet (buildBookieMap home bms m) k =
        bestStrict (assocGet m k) (relevantFor home k bms) := by
  intro bms
  induction bms with
  | nil => intro m; simp [buildBookieMap, relevantFor, bestStrict]
  | cons bm rest ih =>
    intro m
    by_cases hm : bm.market = "h2h"
    · by_cases ho : bm.outcome = home
      · by_cases hbk : bm.bookie = k
        · subst hbk
          cases hget : assocGet m bm.bookie with
          | none =>
            simp [buildBookieMap, hm, ho, hget, ih, assocGet_set_self,
              relevantFor, List.filter, bestStrict]
          | some a =>
            by_cases hodds : a.odds < bm.odds
            · simp [buildBookieMap, hm, ho, hget, hodds, ih, assocGet_set_self,
                relevantFor, List.filter, bestStrict]
            · simp [buildBookieMap, hm, ho, hget, hodds, ih,
                relevantFor, List.filter, bestStrict]
        · have hbkb : (bm.bookie == k) = false := by simpa using hbk
          cases hget : assocGet m bm.bookie with
          | none =>
            simp [buildBookieMap, hm, ho, hget, ih, assocGet_set_ne _ _ _ _ hbk,
              relevantFor, List.filter, hbkb]
          | some a =>
            by_cases hodds : a.odds < bm.odds
            · simp [buildBookieMap, hm, ho, hget, hodds, ih, assocGet_set_ne _ _ _ _ hbk,
                relevantFor, List.filter, hbkb]
            · simp [buildBookieMap, hm, ho, hget, hodds, ih,
                relevantFor, List.filter, hbkb]
      · have hob : (bm.outcome == home) = false := by simpa using ho
        simp [buildBookieMap, hm, hob, ih, relevantFor, List.filter]
    · have hmb : (bm.market == "h2h") = false := by simpa using hm
      simp [buildBookieMap, hmb, ih, relevantFor, List.filter]

theorem findMatchingRunner_mem {bookieOutcome : String} {rs : List BetfairRunner}
    {r : BetfairRunner} (h : findMatchingRunner bookieOutcome rs = some r) : r ∈ rs := by
  rw [findMatchingRunner_eq_find] at h
  exact List.mem_of_find?_eq_some h

theorem detectArbs_mem_elim (bs : List BookieOdds) (bf : BetfairOdds) (opp : ArbOpportunity)
    (h : opp ∈ detectArbs bs bf) :
    ∃ bookie runner best tail, bookie ∈ bs ∧
      findMatchingRunner bookie.outcome bf.runners = some runner ∧
      layPricesOf runner = best :: tail ∧
      0 < calculateProfitMargin bookie.odds best.price ∧
      opp = mkDetectedArb bookie bf runner best := by
  induction bs with
  | nil => simp [detectArbs] at h
  | cons bookie rest ih =>
    rw [detectArbs] at h
    rcases List.mem_append.mp h with h1 | h2
    · cases hfind : findMatchingRunner bookie.outcome bf.runners with
      | none => simp only [hfind] at h1; simp at h1
      | some runner =>
        simp only [hfind] at h1
        cases hlay : layPricesOf runner with
        | nil => simp only [hlay] at h1; simp at h1
        | cons best tail =>
          simp only [hlay] at h1
          by_cases hpm : 0 < calculateProfitMargin bookie.odds best.price
          · rw [if_pos hpm] at h1
            simp only [List.mem_singleton] at h1
            exact ⟨bookie, runner, best, tail, List.mem_cons_self _ _, hfind, hlay, hpm, h1⟩
          · rw [if_neg hpm] at h1
            simp at h1
    · rcases ih h2 with ⟨b, r, best, tail, hb, hf, hl, hp, he⟩
      exact ⟨b, r, best, tail, List.mem_cons_of_mem _ hb, hf, hl, hp, he⟩

/-- C8: for every outcome name and candidate list, `findMatchingRunner` returns
the first candidate, in list order, whose lower-cased trimmed name equals the
lower-cased trimmed outcome name or where either normalized string contains the
other as a substring, and `none` when no candidate qualifies; in particular
"Lakers" matches "Los Angeles Lakers" by containment while the typo "Celtis"
does not match "Celtics". -/
theorem findMatchingRunner_first_match_spec :
    (∀ (bookieOutcome : String) (rs : List BetfairRunner),
      findMatchingRunner bookieOutcome rs = rs.find? (runnerMatchPred bookieOutcome)) ∧
    findMatchingRunner "Lakers" [⟨101, "Los Angeles Lakers", none⟩] =
      some ⟨101, "Los Angeles Lakers", none⟩ ∧
    findMatchingRunner "Celtis" [⟨102, "Celtics", none⟩] = none := by
  refine ⟨findMatchingRunner_eq_find, by decide, by decide⟩

/-- C1 (code bug evaluation): `makeRequest` retries on every `INVALID_SESSION`
response with no retry cap: against a response sequence whose first `n` answers
all signal an invalid session it performs `n + 1` attempts, and in particular
two consecutive invalid-session responses lead to a third attempt — the claimed
two-attempt ceiling is exceeded. -/
theorem makeRequest_unbounded_retry :
    (∀ n : ℕ,
      (makeRequest (List.replicate n (RpcResponse.invalidSession : RpcResponse ℕ) ++
        [RpcResponse.ok 7])).attempts = n + 1) ∧
    makeRequest [RpcResponse.invalidSession, RpcResponse.invalidSession,
      RpcResponse.ok (7 : ℕ)] = ⟨3, some (Except.ok 7)⟩ ∧ 2 < 3 := by
  refine ⟨?_, rfl, by decide⟩
  intro n
  induction n with
  | zero => rfl
  | succ n ih => simpa [List.replicate, makeRequest] using ih

/-- C2 (counterexample): a cached session record still 30 minutes from expiry —
well inside any one-hour safety margin — is returned as-is by
`getSessionToken`, with no login performed and the store unchanged, against the
claim that a record expiring within the margin triggers a fresh login. -/
theorem getSessionToken_no_safety_margin_cex :
    getSessionToken ⟨some ("cachedTok", 1800000)⟩ 0 (LoginResponse.success "freshTok") =
      Except.ok ("cachedTok", false, ⟨some ("cachedTok", 1800000)⟩) ∧
    (1800000 : ℤ) < 3600000 := by
  exact ⟨rfl, by decide⟩

/-- C2 (amended): `getSessionToken` returns the cached token without any login
whenever the stored record has not yet expired, regardless of how little
lifetime remains (there is no safety margin); only when no unexpired record
exists does it perform the login, and on success it persists the token with a
fixed 4-hour (`14400 * 1000` ms) time-to-live. -/
theorem getSessionToken_cache_behavior (store : SessionStore) (now : ℤ)
    (login : LoginResponse) :
    (∀ token, sessionGet store now = some token →
      getSessionToken store now login = Except.ok (token, false, store)) ∧
    (sessionGet store now = none → ∀ token, login = LoginResponse.success token →
      getSessionToken store now login =
        Except.ok (token, true, sessionSet now token (14400 * 1000))) := by
  constructor
  · intro token hc
    simp [getSessionToken, hc]
  · intro hc token hl
    simp [getSessionToken, hc, hl]

theorem getSessionToken_cache_behavior_witness :
    getSessionToken ⟨some ("tok", 100)⟩ 0 (LoginResponse.success "fresh") =
      Except.ok ("tok", false, ⟨some ("tok", 100)⟩) ∧
    getSessionToken ⟨none⟩ 0 (LoginResponse.success "fresh") =
      Except.ok ("fresh", true, sessionSet 0 "fresh" (14400 * 1000)) := by
  exact ⟨(getSessionToken_cache_behavior ⟨some ("tok", 100)⟩ 0
      (LoginResponse.success "fresh")).1 "tok" rfl,
    (getSessionToken_cache_behavior ⟨none⟩ 0
      (LoginResponse.success "fresh")).2 rfl "fresh" rfl⟩

/-- C10: whenever `processArb` rejects (`processed: false`) — for the duplicate
reason or for a validation failure — the processed-marker store is left
unchanged; the marker for the opportunity's id is written exactly when the call
returns `processed: true`. -/
theorem processArb_rejection_atomic (store : ProcessedStore) (now : ℤ)
    (arb : ArbOpportunity) :
    (processArb store now arb).2 =
      if (processArb store now arb).1.processed = true then markProcessed store now arb
      else store := by
  unfold processArb
  by_cases hp : isProcessed store now arb.id = true
  · simp [hp]
  · simp only [Bool.not_eq_true] at hp
    cases hv : validateArb arb with
    | valid => simp [hp, hv]
    | invalid r => simp [hp, hv]

/-- C4: starting from a store with no live processed marker for the
opportunity's id, a validation-passing opportunity is accepted
(`processed: true`) on the first `processArb` call, and a second call with the
same id within the two-hour retention window is rejected with the
"Already processed" reason. -/
theorem processArb_idempotent_dedup (store : ProcessedStore) (t1 t2 : ℤ)
    (arb : ArbOpportunity)
    (hfresh : isProcessed store t1 arb.id = false)
    (hvalid : validateArb arb = ValidateResult.valid)
    (hwin : t2 < t1 + KV_EXPIRY_MS) :
    (processArb store t1 arb).1 = ⟨true, none⟩ ∧
    (processArb (processArb store t1 arb).2 t2 arb).1 =
      ⟨false, some ProcessReason.alreadyProcessed⟩ := by
  have h1 : processArb store t1 arb = (⟨true, none⟩, markProcessed store t1 arb) := by
    simp [processArb, hfresh, hvalid]
  refine ⟨by rw [h1], ?_⟩
  rw [h1]
  have hp : isProcessed (markProcessed store t1 arb) t2 arb.id = true := by
    simp [isProcessed, markProcessed, assocGet_set_self, hwin]
  simp [processArb, hp]

theorem processArb_idempotent_dedup_witness :
    (processArb [] 0 wArb).1 = ⟨true, none⟩ ∧
    (processArb (processArb [] 0 wArb).2 1000 wArb).1 =
      ⟨false, some ProcessReason.alreadyProcessed⟩ :=
  processArb_idempotent_dedup [] 0 1000 wArb (by decide) (by decide) (by decide)

/-- C6: for an opportunity whose profit margin meets the 2% minimum, the
liquidity check of `validateArb` is non-strict — a lay liquidity exactly equal
to `suggestedStake * bookieOdds` is accepted, while any lay liquidity strictly
below it is rejected with the insufficient-liquidity reason, which is distinct
from the margin-rejection reason. -/
theorem validateArb_liquidity_boundary (arb : ArbOpportunity)
    (hm : MIN_PROFIT_MARGIN ≤ arb.profitMargin) :
    (arb.layLiquidity = arb.suggestedStake * arb.bookieOdds →
      validateArb arb = ValidateResult.valid) ∧
    (arb.layLiquidity < arb.suggestedStake * arb.bookieOdds →
      validateArb arb = ValidateResult.invalid (RejectReason.insufficientLiquidity
        (arb.suggestedStake * arb.bookieOdds) arb.layLiquidity) ∧
      ∀ q1 q2, RejectReason.insufficientLiquidity
        (arb.suggestedStake * arb.bookieOdds) arb.layLiquidity ≠
          RejectReason.marginBelow q1 q2) := by
  have hmargin : ¬ arb.profitMargin < MIN_PROFIT_MARGIN := not_lt.mpr hm
  constructor
  · intro hl
    have : ¬ arb.layLiquidity < arb.suggestedStake * arb.bookieOdds := by
      rw [hl]; exact lt_irrefl _
    simp [validateArb, hmargin, this]
  · intro hl
    refine ⟨by simp [validateArb, hmargin, hl], ?_⟩
    intro q1 q2
    simp

theorem validateArb_liquidity_boundary_witness :
    validateArb wArbEdge = ValidateResult.valid ∧
    (validateArb wArbLow = ValidateResult.invalid (RejectReason.insufficientLiquidity
        (wArbLow.suggestedStake * wArbLow.bookieOdds) wArbLow.layLiquidity) ∧
      ∀ q1 q2, RejectReason.insufficientLiquidity
        (wArbLow.suggestedStake * wArbLow.bookieOdds) wArbLow.layLiquidity ≠
          RejectReason.marginBelow q1 q2) :=
  ⟨(validateArb_liquidity_boundary wArbEdge (by decide)).1 (by decide),
    (validateArb_liquidity_boundary wArbLow (by decide)).2 (by decide)⟩

theorem calculateProfitMargin_pos_iff (backOdds layOdds : ℚ) :
    0 < calculateProfitMargin backOdds layOdds ↔ 0 < layOdds ∧ layOdds < backOdds := by
  unfold calculateProfitMargin
  by_cases h : layOdds ≤ 0
  · rw [if_pos h]
    constructor
    · intro h0
      exact absurd h0 (lt_irrefl 0)
    · rintro ⟨h1, _⟩
      linarith
  · push_neg at h
    rw [if_neg (not_le.mpr h)]
    rw [div_pos_iff]
    constructor
    · rintro (⟨h1, _⟩ | ⟨_, h2⟩)
      · exact ⟨h, by linarith⟩
      · linarith
    · rintro ⟨_, h1⟩
      exact Or.inl ⟨by linarith, h⟩

/-- C3 (counterexample): `detectArbs` emits an opportunity with strictly
positive `profitMargin` (0.25, from back 1.5 against lay 1.2) whose
implied-probability sum `1/backPrice + 1/layPrice` is `3/2`, not below 1 — so a
positive margin does not require the implied-probability condition claimed. -/
theorem detectArbs_implied_sum_cex :
    detectArbs [c3Bookie] c3Betfair = [c3Opp] ∧ 0 < c3Opp.profitMargin ∧
    ¬(1 / c3Opp.bookieOdds + 1 / c3Opp.layOdds < 1) := by decide

/-- C3 (amended): every opportunity emitted by `detectArbs` or
`buildArbOpportunity` has a strictly positive `profitMargin`, and positivity
holds exactly when the lay price is positive and strictly below the bookmaker
back price; the implied-probability sum `1/backPrice + 1/layPrice` may be 1 or
more. -/
theorem profitMargin_positive_only_back_gt_lay :
    (∀ (bs : List BookieOdds) (bf : BetfairOdds) (opp : ArbOpportunity),
      opp ∈ detectArbs bs bf →
      0 < opp.profitMargin ∧ 0 < opp.layOdds ∧ opp.layOdds < opp.bookieOdds) ∧
    (∀ (bookie : BookieOdds) (r : BetfairRunner) (mid ev sp st : String)
      (opp : ArbOpportunity), buildArbOpportunity bookie r mid ev sp st = some opp →
      0 < opp.profitMargin ∧ 0 < opp.layOdds ∧ opp.layOdds < opp.bookieOdds) := by
  constructor
  · intro bs bf opp h
    obtain ⟨bookie, runner, best, tail, _, _, _, hpm, he⟩ := detectArbs_mem_elim bs bf opp h
    obtain ⟨hl, hb⟩ := (calculateProfitMargin_pos_iff bookie.odds best.price).mp hpm
    subst he
    exact ⟨hpm, hl, hb⟩
  · intro bookie r mid ev sp st opp h
    cases hlay : layPricesOf r with
    | nil =>
      simp only [buildArbOpportunity, hlay] at h
      exact Option.noConfusion h
    | cons best tail =>
      simp only [buildArbOpportunity, hlay] at h
      by_cases hpm : calculateProfitMargin bookie.odds best.price ≤ 0
      · simp [hpm] at h
      · rw [if_neg hpm] at h
        replace h := Option.some.inj h
        have hpm' : 0 < calculateProfitMargin bookie.odds best.price := not_le.mp hpm
        obtain ⟨hl, hb⟩ := (calculateProfitMargin_pos_iff bookie.odds best.price).mp hpm'
        subst h
        exact ⟨hpm', hl, hb⟩

theorem profitMargin_positive_witness :
    (0 < c3Opp.profitMargin ∧ 0 < c3Opp.layOdds ∧ c3Opp.layOdds < c3Opp.bookieOdds) ∧
    (0 < c3Opp.profitMargin ∧ 0 < c3Opp.layOdds ∧ c3Opp.layOdds < c3Opp.bookieOdds) :=
  ⟨profitMargin_positive_only_back_gt_lay.1 [c3Bookie] c3Betfair c3Opp (by decide),
    profitMargin_positive_only_back_gt_lay.2 c3Bookie c3Runner c3Betfair.marketId
      c3Bookie.event c3Bookie.sport c3Bookie.startTime c3Opp (by decide)⟩

/-- C9: the two detection strategies populate `layLiquidity` in different
units — every opportunity returned by `detectArbs` carries the first
available-to-lay level's `size * price`, while every opportunity returned by
`detectArb` carries that level's raw `size` alone (with `layOdds` the level's
price in both). -/
theorem layLiquidity_units_differ :
    (∀ (bs : List BookieOdds) (bf : BetfairOdds) (opp : ArbOpportunity),
      opp ∈ detectArbs bs bf → ∃ r ∈ bf.runners, ∃ best tail,
        layPricesOf r = best :: tail ∧ opp.layOdds = best.price ∧
        opp.layLiquidity = best.size * best.price) ∧
    (∀ (g : Game) (mkt : BfMarket) (opp : ArbOpportunity),
      detectArb g mkt = some opp → ∃ r ∈ mkt.runners, ∃ best tail,
        layPricesOf r = best :: tail ∧ opp.layOdds = best.price ∧
        opp.layLiquidity = best.size) := by
  constructor
  · intro bs bf opp h
    obtain ⟨bookie, runner, best, tail, _, hf, hlay, _, he⟩ := detectArbs_mem_elim bs bf opp h
    subst he
    exact ⟨runner, findMatchingRunner_mem hf, best, tail, hlay, rfl, rfl⟩
  · intro g mkt opp h
    cases hfind : mkt.runners.find? (fun r => homeRunnerMatch g.homeTeam r) with
    | none =>
      simp only [detectArb, hfind] at h
      exact Option.noConfusion h
    | some hr =>
      cases hlay : layPricesOf hr with
      | nil =>
        simp only [detectArb, hfind, hlay] at h
        exact Option.noConfusion h
      | cons best tail =>
        cases hq : firstQualifying best.price best.size
            (buildBookieMap g.homeTeam g.bookmakers []) with
        | none =>
          simp only [detectArb, hfind, hlay, hq] at h
          exact Option.noConfusion h
        | some entry =>
          simp only [detectArb, hfind, hlay, hq] at h
          replace h := Option.some.inj h
          subst h
          exact ⟨hr, List.mem_of_find?_eq_some hfind, best, tail, hlay, rfl, rfl⟩

theorem layLiquidity_units_differ_witness :
    (∃ r ∈ c3Betfair.runners, ∃ best tail,
      layPricesOf r = best :: tail ∧ c3Opp.layOdds = best.price ∧
      c3Opp.layLiquidity = best.size * best.price) ∧
    (∃ r ∈ wMarket.runners, ∃ best tail,
      layPricesOf r = best :: tail ∧ wSingleOpp.layOdds = best.price ∧
      wSingleOpp.layLiquidity = best.size) :=
  ⟨layLiquidity_units_differ.1 [c3Bookie] c3Betfair c3Opp (by decide),
    layLiquidity_units_differ.2 wGame wMarket wSingleOpp (by decide)⟩

/-- C5: the single-side detector `detectArb` (i) keeps, per bookmaker, the
highest back price for the home-team `h2h` outcome with a strictly-greater
override, so (ii) an equal later price does not replace an earlier one;
(iii) its bookmaker loop returns the first map entry in insertion
(iteration) order passing the acceptance test; (iv) any returned opportunity
satisfies `1/backPrice + 1/layPrice < 0.98` and lay liquidity strictly above
20; and (v) the result is exactly the first qualifying entry's opportunity —
`none` when no bookmaker qualifies. -/
theorem detectArb_first_acceptable_spec :
    (∀ (home : String) (bms : List GameBookmaker) (k : String),
      assocGet (buildBookieMap home bms []) k = bestStrict none (relevantFor home k bms)) ∧
    (assocGet (buildBookieMap "H"
      [⟨"B", "key1", "h2h", "H", 2, none⟩, ⟨"B", "key2", "h2h", "H", 2, none⟩] []) "B" =
        some ⟨"B", "key1", 2⟩) ∧
    (∀ (layOdds liquidity : ℚ) (m : List (String × BookieBest)),
      firstQualifying layOdds liquidity m =
        m.find? (fun e => arbQualifies layOdds liquidity e.2)) ∧
    (∀ (g : Game) (mkt : BfMarket) (opp : ArbOpportunity),
      detectArb g mkt = some opp →
        1 / opp.bookieOdds + 1 / opp.layOdds < 98 / 100 ∧ opp.layLiquidity > 20) ∧
    (∀ (g : Game) (mkt : BfMarket) (hr : BetfairRunner) (best : BetfairPrice)
      (tail : List BetfairPrice),
      mkt.runners.find? (fun r => homeRunnerMatch g.homeTeam r) = some hr →
      layPricesOf hr = best :: tail →
      detectArb g mkt =
        (firstQualifying best.price best.size
          (buildBookieMap g.homeTeam g.bookmakers [])).map
            (mkSingleArb g mkt hr best.price best.size)) := by
  refine ⟨?_, by decide, firstQualifying_eq_find, ?_, ?_⟩
  · intro home bms k
    rw [buildBookieMap_get]
    rfl
  · intro g mkt opp h
    cases hfind : mkt.runners.find? (fun r => homeRunnerMatch g.homeTeam r) with
    | none =>
      simp only [detectArb, hfind] at h
      exact Option.noConfusion h
    | some hr =>
      cases hlay : layPricesOf hr with
      | nil =>
        simp only [detectArb, hfind, hlay] at h
        exact Option.noConfusion h
      | cons best tail =>
        cases hq : firstQualifying best.price best.size
            (buildBookieMap g.homeTeam g.bookmakers []) with
        | none =>
          simp only [detectArb, hfind, hlay, hq] at h
          exact Option.noConfusion h
        | some entry =>
          simp only [detectArb, hfind, hlay, hq] at h
          replace h := Option.some.inj h
          subst h
          rw [firstQualifying_eq_find] at hq
          have hqual := List.find?_some hq
          rw [arbQualifies, Bool.and_eq_true, decide_eq_true_iff, decide_eq_true_iff] at hqual
          exact hqual
  · intro g mkt hr best tail hfind hlay
    cases hq : firstQualifying best.price best.size
        (buildBookieMap g.homeTeam g.bookmakers []) with
    | none =>
      simp only [detectArb, hfind, hlay, hq]
      rfl
    | some entry =>
      simp only [detectArb, hfind, hlay, hq]
      rfl

theorem detectArb_first_acceptable_witness :
    (1 / wSingleOpp.bookieOdds + 1 / wSingleOpp.layOdds < 98 / 100 ∧
      wSingleOpp.layLiquidity > 20) ∧
    detectArb wGame wMarket =
      (firstQualifying ((41 : ℚ) / 20) 100
        (buildBookieMap wGame.homeTeam wGame.bookmakers [])).map
          (mkSingleArb wGame wMarket wHomeRunner ((41 : ℚ) / 20) 100) :=
  ⟨(detectArb_first_acceptable_spec.2.2.2.1 wGame wMarket wSingleOpp (by decide)),
    by
      have h := detectArb_first_acceptable_spec.2.2.2.2 wGame wMarket wHomeRunner
        ⟨41 / 20, 100⟩ [] (by decide) (by decide)
      exact h⟩

theorem greyCandidate_range (r : ℕ → ℕ) (mn mx : ℤ) (i : ℕ) (h : mn ≤ mx) :
    mn ≤ greyCandidate r mn mx i ∧ greyCandidate r mn mx i ≤ mx := by
  unfold greyCandidate
  have hspan : (0 : ℤ) < mx - mn + 1 := by linarith
  have hnat : ((mx - mn + 1).toNat : ℤ) = mx - mn + 1 := Int.toNat_of_nonneg (le_of_lt hspan)
  have hpos : 0 < (mx - mn + 1).toNat := by omega
  have hmod : r i % (mx - mn + 1).toNat < (mx - mn + 1).toNat := Nat.mod_lt _ hpos
  have h1 : (0 : ℤ) ≤ ((r i % (mx - mn + 1).toNat : ℕ) : ℤ) := Int.ofNat_nonneg _
  have h2 : ((r i % (mx - mn + 1).toNat : ℕ) : ℤ) < mx - mn + 1 := by
    rw [← hnat]
    exact_mod_cast hmod
  omega

theorem greyLoop_some_props (r : ℕ → ℕ) (mn mx : ℤ) :
    ∀ (fuel i : ℕ) (s : ℤ), greyLoop r mn mx fuel i = some s →
      (∃ j, s = greyCandidate r mn mx j) ∧ s % 50 ≠ 0 ∧ s % 100 ≠ 0 := by
  intro fuel
  induction fuel with
  | zero => intro i s h; exact Option.noConfusion h
  | succ fuel ih =>
    intro i s h
    simp only [greyLoop] at h
    split at h
    · exact ih (i + 1) s h
    · rename_i hg
      replace h := Option.some.inj h
      subst h
      simp only [Bool.or_eq_true, beq_iff_eq, not_or] at hg
      exact ⟨⟨i, rfl⟩, hg.1, hg.2⟩

theorem greyLoop_terminates (r : ℕ → ℕ) (mn mx : ℤ) :
    ∀ (fuel i : ℕ),
      (∃ j, i ≤ j ∧ j < i + fuel ∧ greyOk (greyCandidate r mn mx j) = true) →
      ∃ s, greyLoop r mn mx fuel i = some s := by
  intro fuel
  induction fuel with
  | zero =>
    rintro i ⟨j, hij, hj, _⟩
    omega
  | succ fuel ih =>
    rintro i ⟨j, hij, hj, hok⟩
    simp only [greyLoop]
    split
    · rename_i hg
      apply ih (i + 1)
      refine ⟨j, ?_, by omega, hok⟩
      rcases Nat.eq_or_lt_of_le hij with rfl | hlt
      · exfalso
        unfold greyOk at hok
        rw [hg] at hok
        simp at hok
      · omega
    · exact ⟨_, rfl⟩

theorem greyLoop_const_none : ∀ (fuel i : ℕ), greyLoop (fun _ => 0) 50 51 fuel i = none := by
  intro fuel
  induction fuel with
  | zero => intro i; rfl
  | succ fuel ih =>
    intro i
    have hc : greyCandidate (fun _ => 0) 50 51 i = 50 := rfl
    simp only [greyLoop, hc]
    have hg : ((50 : ℤ) % 50 == 0 || (50 : ℤ) % 100 == 0) = true := by decide
    rw [if_pos hg]
    exact ih (i + 1)

/-- C7 (counterexample): the range `[50, 51]` satisfies the claim's premises
(`min ≤ max`, and 51 is divisible by neither 50 nor 100), yet on the draw
sequence that keeps sampling the disqualified value 50 the
`calculateGreyManStake` loop never returns: the claimed unconditional
termination fails — the loop only terminates almost surely. -/
theorem calculateGreyManStake_nontermination_cex :
    ((50 : ℤ) ≤ 51 ∧ ¬((50 : ℤ) ∣ 51) ∧ ¬((100 : ℤ) ∣ 51)) ∧
    ¬ ∃ fuel s, calculateGreyManStake fuel (fun _ => 0) 50 51 = some s := by
  refine ⟨by decide, ?_⟩
  rintro ⟨fuel, s, h⟩
  rw [calculateGreyManStake, greyLoop_const_none] at h
  exact Option.noConfusion h

/-- C7 (amended): whenever `calculateGreyManStake` returns a stake for a range
with `min ≤ max`, that stake lies in `[min, max]` and is divisible by neither
50 nor 100; and for every draw sequence that eventually samples a qualifying
value — which, when the range contains one, is an event of probability 1 under
uniform sampling — the loop terminates with such a stake. -/
theorem calculateGreyManStake_sound :
    (∀ (mn mx : ℤ) (r : ℕ → ℕ) (fuel : ℕ) (s : ℤ), mn ≤ mx →
      calculateGreyManStake fuel r mn mx = some s →
      mn ≤ s ∧ s ≤ mx ∧ ¬((50 : ℤ) ∣ s) ∧ ¬((100 : ℤ) ∣ s)) ∧
    (∀ (mn mx : ℤ) (r : ℕ → ℕ),
      (∃ i, greyOk (greyCandidate r mn mx i) = true) →
      ∃ fuel s, calculateGreyManStake fuel r mn mx = some s) := by
  constructor
  · intro mn mx r fuel s hle h
    obtain ⟨⟨j, hj⟩, h50, h100⟩ := greyLoop_some_props r mn mx fuel 0 s h
    obtain ⟨hlo, hhi⟩ := greyCandidate_range r mn mx j hle
    rw [← hj] at hlo hhi
    refine ⟨hlo, hhi, ?_, ?_⟩
    · rw [Int.dvd_iff_emod_eq_zero]
      exact h50
    · rw [Int.dvd_iff_emod_eq_zero]
      exact h100
  · rintro mn mx r ⟨i, hok⟩
    obtain ⟨s, hs⟩ := greyLoop_terminates r mn mx (i + 1) 0 ⟨i, Nat.zero_le _, by omega, hok⟩
    exact ⟨i + 1, s, hs⟩

theorem calculateGreyManStake_witness :
    ((280 : ℤ) ≤ 280 ∧ (280 : ℤ) ≤ 420 ∧ ¬((50 : ℤ) ∣ 280) ∧ ¬((100 : ℤ) ∣ 280)) ∧
    ∃ fuel s, calculateGreyManStake fuel (fun _ => 0) 280 420 = some s :=
  ⟨calculateGreyManStake_sound.1 280 420 (fun _ => 0) 1 280 (by decide) (by decide),
    calculateGreyManStake_sound.2 280 420 (fun _ => 0) ⟨0, by decide⟩⟩
